import Mathlib

/-!
Verification of the order-placement saga of the vendora backend.

The Go code in `internal/adapters/repository/order_repository.go` drives a
cart-to-order saga against a document store: for each cart line it looks up
the product, performs an atomic conditional stock decrement
(`UpdateOne` with filter `stock ≥ quantity` and update `$inc stock -quantity`),
accumulates an order line built from the catalog price and vendor id, then
computes totals, inserts the order and best-effort clears the cart.  On
failures it compensates by incrementing the stock back for already-processed
lines.

We embed the store as association lists keyed by `Nat` (standing in for Mongo
ObjectIDs), money as `ℚ` (the Go code uses `float64`; all amounts appearing in
the claims are exactly representable) and the only nondeterministic effects —
whether the order insert fails, whether the cart-clearing write fails, and the
generated order number — as an explicit `Flags` record.
-/

/-- A catalog product as the saga reads it: unit price, owning vendor, display
name and the mutable stock counter (`int` in Go, so `ℤ` here). -/
structure Product where
  price : ℚ
  vendorID : Nat
  name : String
  stock : ℤ
deriving DecidableEq, Repr

/-- One cart line: product reference, quantity, and the denormalized
price/name/image snapshot captured at add time. -/
structure CartItem where
  productID : Nat
  name : String
  image : String
  price : ℚ
  quantity : ℤ
deriving DecidableEq, Repr

/-- A buyer's cart document. -/
structure Cart where
  userID : Nat
  items : List CartItem
deriving DecidableEq, Repr

/-- An order line item frozen into the order at checkout. -/
structure OrderItem where
  productID : Nat
  vendorID : Nat
  name : String
  image : String
  price : ℚ
  quantity : ℤ
  subtotal : ℚ
deriving DecidableEq, Repr

/-- The persisted order record (timestamps and payment ids omitted: no claim
mentions them). -/
structure Order where
  orderNumber : String
  userID : Nat
  items : List OrderItem
  subtotal : ℚ
  shippingFee : ℚ
  tax : ℚ
  total : ℚ
  status : String
  paymentStatus : String
  paymentMethod : String
  shippingAddress : String
deriving DecidableEq, Repr

/-- Buyer-supplied checkout input. -/
structure PlaceOrderInput where
  shippingAddress : String
  paymentMethod : String
deriving DecidableEq, Repr

/-- The shared document store: products, orders and carts collections. -/
structure Store where
  products : List (Nat × Product)
  orders : List Order
  carts : List (Nat × Cart)
deriving DecidableEq, Repr

/-- `FindOne` on the products collection by `_id`. -/
def findProduct : List (Nat × Product) → Nat → Option Product
  | [], _ => none
  | (k, p) :: rest, pid => if k = pid then some p else findProduct rest pid

/-- Overwrite the stock counter of the (first) document with the given id,
leaving every other field and document untouched. -/
def setStock : List (Nat × Product) → Nat → ℤ → List (Nat × Product)
  | [], _, _ => []
  | (k, p) :: rest, pid, v =>
      if k = pid then (k, { p with stock := v }) :: rest
      else (k, p) :: setStock rest pid v

/-- The `$inc stock q` update with filter `_id = pid`: a no-op when no
document matches, as Mongo's `UpdateOne` without upsert. -/
def incStock (ps : List (Nat × Product)) (pid : Nat) (q : ℤ) : List (Nat × Product) :=
  match findProduct ps pid with
  | none => ps
  | some p => setStock ps pid (p.stock + q)

/-- The atomic conditional reservation: `UpdateOne` with filter
`{_id: pid, stock: {$gte: q}}` and update `{$inc: {stock: -q}}`.  Returns the
new collection and whether a document was modified (`ModifiedCount = 1`). -/
def reserveStock (ps : List (Nat × Product)) (pid : Nat) (q : ℤ) :
    List (Nat × Product) × Bool :=
  match findProduct ps pid with
  | none => (ps, false)
  | some p => if q ≤ p.stock then (setStock ps pid (p.stock - q), true) else (ps, false)

/-- The compensation loop: `$inc` each processed (product, quantity) pair back,
in list order, best-effort. -/
def rollbackAll : List (Nat × Product) → List (Nat × ℤ) → List (Nat × Product)
  | ps, [] => ps
  | ps, (pid, q) :: rest => rollbackAll (incStock ps pid q) rest

/-- The typed errors `PlaceOrder` can surface. -/
inductive PlaceError where
  | emptyCart
  | productNotFound (name : String)
  | insufficientStock (name : String)
  | insertFailed
deriving DecidableEq, Repr

/-- Accumulator of the per-line loop in `PlaceOrder`: the products collection
as mutated so far, the order items, the running subtotal, and the
compensation list `processedProducts`. -/
structure LoopAcc where
  products : List (Nat × Product)
  orderItems : List OrderItem
  subtotal : ℚ
  processed : List (Nat × ℤ)
deriving DecidableEq, Repr

/-- The per-line loop of `PlaceOrder` (order_repository.go lines 49-98).
A missing product returns the error directly — the Go code has no rollback on
that path.  A conditional-update miss (`ModifiedCount = 0`) rolls back the
compensation list and returns the insufficient-stock error. -/
def processItems : List CartItem → LoopAcc → LoopAcc × Option PlaceError
  | [], acc => (acc, none)
  | item :: rest, acc =>
      match findProduct acc.products item.productID with
      | none => (acc, some (PlaceError.productNotFound item.name))
      | some product =>
          let r := reserveStock acc.products item.productID item.quantity
          if r.2 then
            let itemSubtotal := product.price * (item.quantity : ℚ)
            processItems rest
              { products := r.1
                orderItems := acc.orderItems ++
                  [{ productID := item.productID
                     vendorID := product.vendorID
                     name := product.name
                     image := item.image
                     price := product.price
                     quantity := item.quantity
                     subtotal := itemSubtotal }]
                subtotal := acc.subtotal + itemSubtotal
                processed := acc.processed ++ [(item.productID, item.quantity)] }
          else
            ({ acc with products := rollbackAll acc.products acc.processed },
             some (PlaceError.insufficientStock item.name))

/-- Shipping fee: flat 25 unless the subtotal exceeds 500. -/
def shippingFeeFor (subtotal : ℚ) : ℚ := if subtotal > 500 then 0 else 25

/-- Tax: five percent of the subtotal, unrounded. -/
def taxFor (subtotal : ℚ) : ℚ := subtotal * (5 / 100)

/-- Grand total: subtotal + shipping + tax. -/
def totalFor (subtotal : ℚ) : ℚ := subtotal + shippingFeeFor subtotal + taxFor subtotal

/-- Set the items of the (first) cart document with the given user id to `[]`,
as `UpdateOne` with filter `userId` and `$set items: []`. -/
def clearCartStore : List (Nat × Cart) → Nat → List (Nat × Cart)
  | [], _ => []
  | (k, c) :: rest, uid =>
      if k = uid then (k, { c with items := [] }) :: rest
      else (k, c) :: clearCartStore rest uid

/-- Environment effects the saga cannot control: whether the order insert
errors, whether the cart-clearing write errors, and the generated order
number (time- and randomness-derived in Go). -/
structure Flags where
  insertFails : Bool
  clearFails : Bool
  orderNumber : String
deriving DecidableEq, Repr

/-- The order-placement saga, `MongoOrderRepository.PlaceOrder`.  Returns the
store after all writes together with either the created order or an error. -/
def placeOrder (fl : Flags) (userID : Nat) (input : PlaceOrderInput) (cart : Cart)
    (st : Store) : Store × Except PlaceError Order :=
  if cart.items.isEmpty then (st, Except.error PlaceError.emptyCart)
  else
    match processItems cart.items ⟨st.products, [], 0, []⟩ with
    | (acc, some e) => ({ st with products := acc.products }, Except.error e)
    | (acc, none) =>
        let order : Order :=
          { orderNumber := fl.orderNumber
            userID := userID
            items := acc.orderItems
            subtotal := acc.subtotal
            shippingFee := shippingFeeFor acc.subtotal
            tax := taxFor acc.subtotal
            total := totalFor acc.subtotal
            status := "pending"
            paymentStatus := "pending"
            paymentMethod := input.paymentMethod
            shippingAddress := input.shippingAddress }
        if fl.insertFails then
          ({ st with products := rollbackAll acc.products acc.processed },
           Except.error PlaceError.insertFailed)
        else
          ({ products := acc.products
             orders := st.orders ++ [order]
             carts := if fl.clearFails then st.carts else clearCartStore st.carts userID },
           Except.ok order)

/-- `FindOne` on the carts collection by `userId`. -/
def findCart : List (Nat × Cart) → Nat → Option Cart
  | [], _ => none
  | (k, c) :: rest, uid => if k = uid then some c else findCart rest uid

/-- `MongoCartRepository.GetCart`: a missing cart document yields an empty
cart value, not an error. -/
def getCart (carts : List (Nat × Cart)) (userID : Nat) : Except String Cart :=
  match findCart carts userID with
  | none => Except.ok { userID := userID, items := [] }
  | some c => Except.ok c

/-- The HTTP-level outcomes of `OrderHandler.PlaceOrder`. -/
inductive HandlerResult where
  | fetchCartFailed
  | cartEmpty
  | orderFailed (e : PlaceError)
  | created (o : Order)
deriving DecidableEq, Repr

/-- `OrderHandler.PlaceOrder`: fetch the cart, reject when it is empty,
otherwise run the saga. -/
def handlerPlaceOrder (fl : Flags) (userID : Nat) (input : PlaceOrderInput)
    (st : Store) : Store × HandlerResult :=
  match getCart st.carts userID with
  | Except.error _ => (st, HandlerResult.fetchCartFailed)
  | Except.ok cart =>
      if cart.items.isEmpty then (st, HandlerResult.cartEmpty)
      else
        match placeOrder fl userID input cart st with
        | (st', Except.error e) => (st', HandlerResult.orderFailed e)
        | (st', Except.ok o) => (st', HandlerResult.created o)

/-- Stock counter of a product id, defaulting to 0 when absent. -/
def stockOf (ps : List (Nat × Product)) (pid : Nat) : ℤ :=
  ((findProduct ps pid).map Product.stock).getD 0

/-- Unit price of a product id, as an optional value. -/
def priceOf (ps : List (Nat × Product)) (pid : Nat) : Option ℚ :=
  (findProduct ps pid).map Product.price

/-- Vendor id of a product id, as an optional value. -/
def vendorOf (ps : List (Nat × Product)) (pid : Nat) : Option Nat :=
  (findProduct ps pid).map Product.vendorID

/-- Half-up rounding to two decimal places, the rule the spec prescribes for
the tax amount. -/
def roundHalfUp2 (x : ℚ) : ℚ := ((⌊x * 100 + 1 / 2⌋ : ℤ) : ℚ) / 100

/-! ### Association-list lemmas -/

theorem findProduct_setStock_self (ps : List (Nat × Product)) (pid : Nat) (v : ℤ) :
    findProduct (setStock ps pid v) pid
      = (findProduct ps pid).map (fun p => { p with stock := v }) := by
  induction ps with
  | nil => simp [findProduct, setStock]
  | cons hd tl ih =>
      obtain ⟨k, p⟩ := hd
      by_cases hk : k = pid <;> simp [findProduct, setStock, hk, ih]

theorem findProduct_setStock_ne (ps : List (Nat × Product)) (pid pid' : Nat)
    (v : ℤ) (h : pid' ≠ pid) :
    findProduct (setStock ps pid v) pid' = findProduct ps pid' := by
  induction ps with
  | nil => simp [setStock]
  | cons hd tl ih =>
      obtain ⟨k, p⟩ := hd
      by_cases hk : k = pid
      · subst hk
        simp [findProduct, setStock, Ne.symm h]
      · by_cases hk' : k = pid' <;> simp [findProduct, setStock, hk, hk', h, ih]

theorem priceOf_setStock (ps : List (Nat × Product)) (pid pid' : Nat) (v : ℤ) :
    priceOf (setStock ps pid v) pid' = priceOf ps pid' := by
  by_cases h : pid' = pid
  · subst h
    simp only [priceOf, findProduct_setStock_self, Option.map_map]
    cases findProduct ps pid' <;> rfl
  · simp [priceOf, findProduct_setStock_ne ps pid pid' v h]

theorem vendorOf_setStock (ps : List (Nat × Product)) (pid pid' : Nat) (v : ℤ) :
    vendorOf (setStock ps pid v) pid' = vendorOf ps pid' := by
  by_cases h : pid' = pid
  · subst h
    simp only [vendorOf, findProduct_setStock_self, Option.map_map]
    cases findProduct ps pid' <;> rfl
  · simp [vendorOf, findProduct_setStock_ne ps pid pid' v h]

theorem priceOf_reserveStock (ps : List (Nat × Product)) (pid pid' : Nat) (q : ℤ) :
    priceOf (reserveStock ps pid q).1 pid' = priceOf ps pid' := by
  unfold reserveStock
  cases h : findProduct ps pid with
  | none => rfl
  | some p =>
      by_cases hq : q ≤ p.stock <;> simp [hq, priceOf_setStock]

theorem vendorOf_reserveStock (ps : List (Nat × Product)) (pid pid' : Nat) (q : ℤ) :
    vendorOf (reserveStock ps pid q).1 pid' = vendorOf ps pid' := by
  unfold reserveStock
  cases h : findProduct ps pid with
  | none => rfl
  | some p =>
      by_cases hq : q ≤ p.stock <;> simp [hq, vendorOf_setStock]

theorem stockOf_setStock_self (ps : List (Nat × Product)) (pid : Nat) (v : ℤ)
    (p : Product) (h : findProduct ps pid = some p) :
    stockOf (setStock ps pid v) pid = v := by
  simp [stockOf, findProduct_setStock_self, h]

/-! ### Claim theorems: the conditional reservation (C2) -/

/-- C2.  The per-line reservation inside `PlaceOrder` is a single conditional
update: for a product present in the catalog it reports a modification (and
decrements the stock by exactly the requested quantity) iff the current stock
is at least that quantity; otherwise it leaves the collection unchanged (the
caller then surfaces the insufficient-stock error).  On success the new stock
is `stock - q ≥ 0`, so a stock counter can never become negative through a
reservation. -/
theorem reserveStock_conditional_update (ps : List (Nat × Product)) (pid : Nat)
    (q : ℤ) (p : Product) (h : findProduct ps pid = some p) :
    ((reserveStock ps pid q).2 = true ↔ q ≤ p.stock) ∧
    (q ≤ p.stock →
      reserveStock ps pid q = (setStock ps pid (p.stock - q), true) ∧
      stockOf (reserveStock ps pid q).1 pid = p.stock - q ∧
      0 ≤ stockOf (reserveStock ps pid q).1 pid) ∧
    (¬ q ≤ p.stock → reserveStock ps pid q = (ps, false)) := by
  refine ⟨?_, ?_, ?_⟩
  · unfold reserveStock
    rw [h]
    by_cases hq : q ≤ p.stock <;> simp [hq]
  · intro hq
    have hres : reserveStock ps pid q = (setStock ps pid (p.stock - q), true) := by
      unfold reserveStock
      rw [h]
      simp [hq]
    refine ⟨hres, ?_, ?_⟩
    · rw [hres]
      exact stockOf_setStock_self ps pid _ p h
    · rw [hres]
      rw [stockOf_setStock_self ps pid _ p h]
      omega
  · intro hq
    unfold reserveStock
    rw [h]
    simp [hq]

/-- Witness for C2 at a concrete product list: product 1 has stock 5; a
reservation of 3 succeeds and leaves stock 2, a reservation of 6 is refused. -/
theorem reserveStock_conditional_update_witness :
    ((reserveStock [(1, ⟨10, 7, "A", 5⟩)] 1 3).2 = true ↔ (3 : ℤ) ≤ 5) ∧
    ((3 : ℤ) ≤ 5 →
      reserveStock [(1, ⟨10, 7, "A", 5⟩)] 1 3
        = (setStock [(1, ⟨10, 7, "A", 5⟩)] 1 (5 - 3), true) ∧
      stockOf (reserveStock [(1, ⟨10, 7, "A", 5⟩)] 1 3).1 1 = 5 - 3 ∧
      0 ≤ stockOf (reserveStock [(1, ⟨10, 7, "A", 5⟩)] 1 3).1 1) ∧
    (¬ (3 : ℤ) ≤ 5 → reserveStock [(1, ⟨10, 7, "A", 5⟩)] 1 3
        = ([(1, ⟨10, 7, "A", 5⟩)], false)) :=
  reserveStock_conditional_update [(1, ⟨10, 7, "A", 5⟩)] 1 3 ⟨10, 7, "A", 5⟩ (by rfl)

/-! ### Claim theorems: empty-cart rejection (C8) -/

/-- C8.  A cart with zero line items makes `placeOrder` return the empty-cart
error with the store completely unchanged: no stock write, no order insert, no
cart modification. -/
theorem placeOrder_empty_cart (fl : Flags) (userID : Nat) (input : PlaceOrderInput)
    (cart : Cart) (st : Store) (h : cart.items = []) :
    placeOrder fl userID input cart st = (st, Except.error PlaceError.emptyCart) := by
  unfold placeOrder
  simp [h]

/-- Witness for C8: a concrete empty cart is rejected with the store intact. -/
theorem placeOrder_empty_cart_witness :
    placeOrder ⟨false, false, "VEN-1"⟩ 42 ⟨"addr", "card"⟩ ⟨42, []⟩
        ⟨[(1, ⟨10, 7, "A", 5⟩)], [], []⟩
      = (⟨[(1, ⟨10, 7, "A", 5⟩)], [], []⟩, Except.error PlaceError.emptyCart) :=
  placeOrder_empty_cart ⟨false, false, "VEN-1"⟩ 42 ⟨"addr", "card"⟩ ⟨42, []⟩
    ⟨[(1, ⟨10, 7, "A", 5⟩)], [], []⟩ rfl

/-! ### Claim theorems: missing-product path keeps earlier decrements (C1) -/

/-- C1 evidence.  A two-line cart whose first line reserves successfully
(product 1, stock 5, quantity 2) and whose second line references a product
absent from the catalog makes `placeOrder` return the product-not-found error
with product 1's stock left at 3: the committed decrement of the first line is
not incremented back, so the net stock change of the failed call is -2, not
zero.  No order is persisted. -/
theorem placeOrder_missing_product_keeps_decrement :
    placeOrder ⟨false, false, "VEN-1"⟩ 42 ⟨"addr", "card"⟩
        ⟨42, [⟨1, "A", "imgA", 10, 2⟩, ⟨2, "B", "imgB", 3, 1⟩]⟩
        ⟨[(1, ⟨10, 7, "A", 5⟩)], [], []⟩
      = (⟨[(1, ⟨10, 7, "A", 3⟩)], [], []⟩,
         Except.error (PlaceError.productNotFound "B")) ∧
    (3 : ℤ) ≠ 5 := by
  constructor
  · simp [placeOrder, processItems, reserveStock, findProduct, setStock]
  · decide

/-! ### Claim theorems: cart-clear failure does not change the result (C9) -/

theorem placeOrder_clearFails_only_carts (i : Bool) (n : String) (uid : Nat)
    (inp : PlaceOrderInput) (cart : Cart) (st : Store) :
    (placeOrder ⟨i, true, n⟩ uid inp cart st).2
        = (placeOrder ⟨i, false, n⟩ uid inp cart st).2 ∧
    (placeOrder ⟨i, true, n⟩ uid inp cart st).1.orders
        = (placeOrder ⟨i, false, n⟩ uid inp cart st).1.orders ∧
    (placeOrder ⟨i, true, n⟩ uid inp cart st).1.products
        = (placeOrder ⟨i, false, n⟩ uid inp cart st).1.products := by
  unfold placeOrder
  by_cases h : cart.items.isEmpty
  · simp [h]
  · simp only [h, if_false, Bool.false_eq_true]
    cases hp : processItems cart.items ⟨st.products, [], 0, []⟩ with
    | mk acc e =>
        cases e with
        | none => cases i <;> simp
        | some err => simp

/-- C9.  Once the order insert has succeeded, a failure of the best-effort
cart-clearing write changes nothing the caller or the order store can see:
the call still returns the same created order with no error, and the orders
and products collections end in the same state. -/
theorem placeOrder_clear_failure_keeps_order (i : Bool) (n : String) (uid : Nat)
    (inp : PlaceOrderInput) (cart : Cart) (st st₁ : Store) (o : Order)
    (h : placeOrder ⟨i, false, n⟩ uid inp cart st = (st₁, Except.ok o)) :
    ∃ st₂, placeOrder ⟨i, true, n⟩ uid inp cart st = (st₂, Except.ok o) ∧
      st₂.orders = st₁.orders ∧ st₂.products = st₁.products := by
  obtain ⟨h2, horders, hprods⟩ := placeOrder_clearFails_only_carts i n uid inp cart st
  refine ⟨(placeOrder ⟨i, true, n⟩ uid inp cart st).1, ?_, ?_, ?_⟩
  · rw [Prod.ext_iff]
    refine ⟨rfl, ?_⟩
    rw [h2, h]
  · rw [horders, h]
  · rw [hprods, h]

/-! ### Claim theorems: missing cart document (C10) -/

/-- C10.  A buyer with no stored cart document gets an empty cart value (not
an error) from `GetCart`, and the checkout handler therefore answers with the
empty-cart rejection, never with a cart-fetch failure. -/
theorem getCart_missing_gives_empty_rejection (fl : Flags) (uid : Nat)
    (inp : PlaceOrderInput) (st : Store) (h : findCart st.carts uid = none) :
    getCart st.carts uid = Except.ok ⟨uid, []⟩ ∧
    (handlerPlaceOrder fl uid inp st).2 = HandlerResult.cartEmpty ∧
    (handlerPlaceOrder fl uid inp st).2 ≠ HandlerResult.fetchCartFailed := by
  have hg : getCart st.carts uid = Except.ok ⟨uid, []⟩ := by
    unfold getCart
    rw [h]
  refine ⟨hg, ?_, ?_⟩ <;> unfold handlerPlaceOrder <;> rw [hg] <;> simp

/-- Witness for C10 at a store with no cart documents at all. -/
theorem getCart_missing_gives_empty_rejection_witness :
    getCart (Store.carts ⟨[(1, ⟨10, 7, "A", 5⟩)], [], []⟩) 42 = Except.ok ⟨42, []⟩ ∧
    (handlerPlaceOrder ⟨false, false, "VEN-1"⟩ 42 ⟨"addr", "card"⟩
        ⟨[(1, ⟨10, 7, "A", 5⟩)], [], []⟩).2 = HandlerResult.cartEmpty ∧
    (handlerPlaceOrder ⟨false, false, "VEN-1"⟩ 42 ⟨"addr", "card"⟩
        ⟨[(1, ⟨10, 7, "A", 5⟩)], [], []⟩).2 ≠ HandlerResult.fetchCartFailed :=
  getCart_missing_gives_empty_rejection ⟨false, false, "VEN-1"⟩ 42 ⟨"addr", "card"⟩
    ⟨[(1, ⟨10, 7, "A", 5⟩)], [], []⟩ rfl

/-! ### Anatomy of a successful run -/

/-- Sum of the per-line subtotals of a list of order items. -/
def itemsTotal (l : List OrderItem) : ℚ := (l.map OrderItem.subtotal).sum

/-- Sum over the cart lines of (current catalog price) × quantity. -/
def cartLinesTotal (ps : List (Nat × Product)) (items : List CartItem) : ℚ :=
  (items.map (fun ci => ((priceOf ps ci.productID).getD 0) * (ci.quantity : ℚ))).sum

theorem processItems_ok_spec (items : List CartItem) (acc acc' : LoopAcc)
    (h : processItems items acc = (acc', none)) :
    (∀ pid, priceOf acc'.products pid = priceOf acc.products pid) ∧
    (∀ pid, vendorOf acc'.products pid = vendorOf acc.products pid) ∧
    ∃ newItems : List OrderItem,
      acc'.orderItems = acc.orderItems ++ newItems ∧
      acc'.subtotal = acc.subtotal + itemsTotal newItems ∧
      List.Forall₂ (fun ci oi =>
        oi.productID = ci.productID ∧
        priceOf acc.products ci.productID = some oi.price ∧
        vendorOf acc.products ci.productID = some oi.vendorID ∧
        oi.quantity = ci.quantity ∧
        oi.subtotal = oi.price * (ci.quantity : ℚ)) items newItems := by
  induction items generalizing acc with
  | nil =>
      simp only [processItems, Prod.mk.injEq] at h
      obtain ⟨rfl, -⟩ := h
      exact ⟨fun _ => rfl, fun _ => rfl, [], by simp, by simp [itemsTotal], List.Forall₂.nil⟩
  | cons item rest ih =>
      rw [processItems] at h
      cases hf : findProduct acc.products item.productID with
      | none => simp [hf] at h
      | some product =>
          simp only [hf] at h
          by_cases hb : (reserveStock acc.products item.productID item.quantity).2
          · simp only [hb, if_true] at h
            obtain ⟨hprice, hvendor, newItems, hoi, hsub, hfa⟩ := ih _ h
            refine ⟨?_, ?_, ?_⟩
            · intro pid
              rw [hprice pid]
              exact priceOf_reserveStock acc.products item.productID pid item.quantity
            · intro pid
              rw [hvendor pid]
              exact vendorOf_reserveStock acc.products item.productID pid item.quantity
            · refine ⟨⟨item.productID, product.vendorID, product.name, item.image,
                  product.price, item.quantity,
                  product.price * (item.quantity : ℚ)⟩ :: newItems, ?_, ?_, ?_⟩
              · rw [hoi]
                simp
              · rw [hsub]
                simp [itemsTotal]
                ring
              · refine List.Forall₂.cons ⟨rfl, ?_, ?_, rfl, rfl⟩ ?_
                · simp [priceOf, hf]
                · simp [vendorOf, hf]
                · refine hfa.imp ?_
                  intro ci oi hco
                  refine ⟨hco.1, ?_, ?_, hco.2.2.2.1, hco.2.2.2.2⟩
                  · rw [← priceOf_reserveStock acc.products item.productID ci.productID
                      item.quantity]
                    exact hco.2.1
                  · rw [← vendorOf_reserveStock acc.products item.productID ci.productID
                      item.quantity]
                    exact hco.2.2.1
          · rw [if_neg hb] at h
            simp at h

theorem placeOrder_ok_elim (fl : Flags) (uid : Nat) (inp : PlaceOrderInput)
    (cart : Cart) (st st' : Store) (o : Order)
    (h : placeOrder fl uid inp cart st = (st', Except.ok o)) :
    fl.insertFails = false ∧ cart.items ≠ [] ∧
    ∃ acc, processItems cart.items ⟨st.products, [], 0, []⟩ = (acc, none) ∧
      o = ⟨fl.orderNumber, uid, acc.orderItems, acc.subtotal, shippingFeeFor acc.subtotal,
           taxFor acc.subtotal, totalFor acc.subtotal, "pending", "pending",
           inp.paymentMethod, inp.shippingAddress⟩ ∧
      st' = ⟨acc.products, st.orders ++ [o],
             if fl.clearFails then st.carts else clearCartStore st.carts uid⟩ := by
  unfold placeOrder at h
  by_cases he : cart.items.isEmpty
  · simp [he] at h
  · simp only [he, if_false, Bool.false_eq_true] at h
    cases hp : processItems cart.items ⟨st.products, [], 0, []⟩ with
    | mk acc e =>
        rw [hp] at h
        cases e with
        | some err => simp at h
        | none =>
            cases hif : fl.insertFails with
            | true => rw [hif] at h; simp at h
            | false =>
                rw [hif] at h
                simp only [Bool.false_eq_true, if_false, Prod.mk.injEq,
                  Except.ok.injEq] at h
                obtain ⟨hst, ho⟩ := h
                exact ⟨rfl, by simpa using he, acc, rfl, ho.symm, by rw [← hst, ho]⟩

theorem itemsTotal_forall₂ (ps : List (Nat × Product)) (items : List CartItem)
    (newItems : List OrderItem)
    (hfa : List.Forall₂ (fun ci oi =>
        oi.productID = ci.productID ∧
        priceOf ps ci.productID = some oi.price ∧
        vendorOf ps ci.productID = some oi.vendorID ∧
        oi.quantity = ci.quantity ∧
        oi.subtotal = oi.price * (ci.quantity : ℚ)) items newItems) :
    itemsTotal newItems = cartLinesTotal ps items := by
  induction hfa with
  | nil => simp [itemsTotal, cartLinesTotal]
  | cons hab hrest ih =>
      obtain ⟨-, hp, -, -, hs⟩ := hab
      simp only [itemsTotal, cartLinesTotal, List.map_cons, List.sum_cons] at ih ⊢
      rw [hs, hp, ih]
      simp

/-! ### A concrete successful run shared by several witnesses -/

def demoProduct : Product := ⟨10, 7, "A", 5⟩

def demoStore : Store := ⟨[(1, demoProduct)], [], [(42, ⟨42, [⟨1, "A", "imgA", 10, 2⟩]⟩)]⟩

def demoCart : Cart := ⟨42, [⟨1, "A", "imgA", 10, 2⟩]⟩

def demoInput : PlaceOrderInput := ⟨"addr", "card"⟩

def demoOrder : Order :=
  ⟨"VEN-1", 42, [⟨1, 7, "A", "imgA", 10, 2, 20⟩], 20, 25, 1, 46,
   "pending", "pending", "card", "addr"⟩

def demoStoreAfter : Store := ⟨[(1, ⟨10, 7, "A", 3⟩)], [demoOrder], [(42, ⟨42, []⟩)]⟩

theorem demo_run :
    placeOrder ⟨false, false, "VEN-1"⟩ 42 demoInput demoCart demoStore
      = (demoStoreAfter, Except.ok demoOrder) := by
  simp [placeOrder, processItems, reserveStock, findProduct, setStock, clearCartStore,
    shippingFeeFor, taxFor, totalFor, demoStore, demoCart, demoInput, demoOrder,
    demoStoreAfter, demoProduct]
  norm_num

/-! ### Claim theorems: totals (C4) -/

/-- C4.  Every order produced by a successful run satisfies the pricing rules:
its subtotal is the sum over the cart lines of the checkout-time catalog price
times the quantity; shipping is 0 when the subtotal exceeds 500 and 25
otherwise; tax is 5 percent of the subtotal; the total is their sum.  At the
spec's sample points, subtotal 480 gives shipping 25, tax 24 and total 529,
and subtotal 600 gives shipping 0, tax 30 and total 630. -/
theorem placeOrder_totals (fl : Flags) (uid : Nat) (inp : PlaceOrderInput)
    (cart : Cart) (st st' : Store) (o : Order)
    (h : placeOrder fl uid inp cart st = (st', Except.ok o)) :
    o.subtotal = cartLinesTotal st.products cart.items ∧
    o.shippingFee = (if o.subtotal > 500 then 0 else 25) ∧
    o.tax = o.subtotal * (5 / 100) ∧
    o.total = o.subtotal + o.shippingFee + o.tax ∧
    shippingFeeFor 480 = 25 ∧ taxFor 480 = 24 ∧ totalFor 480 = 529 ∧
    shippingFeeFor 600 = 0 ∧ taxFor 600 = 30 ∧ totalFor 600 = 630 := by
  obtain ⟨-, -, acc, hp, ho, -⟩ := placeOrder_ok_elim fl uid inp cart st st' o h
  obtain ⟨-, -, newItems, -, hsub, hfa⟩ := processItems_ok_spec _ _ _ hp
  subst ho
  refine ⟨?_, rfl, rfl, rfl, ?_, ?_, ?_, ?_, ?_, ?_⟩ <;>
    first
      | (show acc.subtotal = _
         rw [hsub, itemsTotal_forall₂ _ _ _ hfa]
         simp)
      | norm_num [shippingFeeFor, taxFor, totalFor]

/-- Witness for C4 at the concrete demo run. -/
theorem placeOrder_totals_witness :
    demoOrder.subtotal = cartLinesTotal demoStore.products demoCart.items ∧
    demoOrder.shippingFee = (if demoOrder.subtotal > 500 then 0 else 25) ∧
    demoOrder.tax = demoOrder.subtotal * (5 / 100) ∧
    demoOrder.total = demoOrder.subtotal + demoOrder.shippingFee + demoOrder.tax ∧
    shippingFeeFor 480 = 25 ∧ taxFor 480 = 24 ∧ totalFor 480 = 529 ∧
    shippingFeeFor 600 = 0 ∧ taxFor 600 = 30 ∧ totalFor 600 = 630 :=
  placeOrder_totals ⟨false, false, "VEN-1"⟩ 42 demoInput demoCart demoStore
    demoStoreAfter demoOrder demo_run

/-! ### Claim theorems: checkout-time catalog price and vendor (C6) -/

/-- C6.  In a successful run, the order's line items correspond one-to-one to
the cart lines, and each carries the checkout-time catalog price and vendor id
of its product (whatever price snapshot the cart holds), with the per-line
subtotal equal to that catalog price times the cart quantity. -/
theorem placeOrder_price_freshness (fl : Flags) (uid : Nat) (inp : PlaceOrderInput)
    (cart : Cart) (st st' : Store) (o : Order)
    (h : placeOrder fl uid inp cart st = (st', Except.ok o)) :
    List.Forall₂ (fun ci oi =>
      oi.productID = ci.productID ∧
      priceOf st.products ci.productID = some oi.price ∧
      vendorOf st.products ci.productID = some oi.vendorID ∧
      oi.quantity = ci.quantity ∧
      oi.subtotal = oi.price * (ci.quantity : ℚ)) cart.items o.items := by
  obtain ⟨-, -, acc, hp, ho, -⟩ := placeOrder_ok_elim fl uid inp cart st st' o h
  obtain ⟨-, -, newItems, hoi, -, hfa⟩ := processItems_ok_spec _ _ _ hp
  subst ho
  show List.Forall₂ _ cart.items acc.orderItems
  rw [hoi]
  simpa using hfa

/-- Witness for C6 at the concrete demo run: the cart snapshot price (10) is
irrelevant; the order line carries the catalog price and vendor. -/
theorem placeOrder_price_freshness_witness :
    List.Forall₂ (fun ci oi =>
      oi.productID = ci.productID ∧
      priceOf demoStore.products ci.productID = some oi.price ∧
      vendorOf demoStore.products ci.productID = some oi.vendorID ∧
      oi.quantity = ci.quantity ∧
      oi.subtotal = oi.price * (ci.quantity : ℚ)) demoCart.items demoOrder.items :=
  placeOrder_price_freshness ⟨false, false, "VEN-1"⟩ 42 demoInput demoCart demoStore
    demoStoreAfter demoOrder demo_run

/-! ### Claim theorems: tax rounding (C5) -/

def fracStore : Store := ⟨[(1, ⟨333/100, 7, "A", 1⟩)], [], []⟩

def fracCart : Cart := ⟨42, [⟨1, "A", "img", 333/100, 1⟩]⟩

def fracOrder : Order :=
  ⟨"VEN-1", 42, [⟨1, 7, "A", "img", 333/100, 1, 333/100⟩], 333/100, 25, 333/2000,
   56993/2000, "pending", "pending", "card", "addr"⟩

def fracStoreAfter : Store := ⟨[(1, ⟨333/100, 7, "A", 0⟩)], [fracOrder], []⟩

/-- C5 counterexample.  With catalog price 3.33 and quantity 1, the persisted
order carries tax 0.1665 — a value with four decimal places, not equal to its
own half-up two-decimal rounding 0.17 — and its total 28.4965 differs from the
total that rounding the tax before summing would give (28.50).  So the code
does not round the tax to two decimals half-up before summing it into the
total. -/
theorem placeOrder_tax_unrounded_cex :
    placeOrder ⟨false, false, "VEN-1"⟩ 42 demoInput fracCart fracStore
      = (fracStoreAfter, Except.ok fracOrder) ∧
    fracOrder.tax ≠ roundHalfUp2 fracOrder.tax ∧
    fracOrder.total ≠ fracOrder.subtotal + fracOrder.shippingFee
      + roundHalfUp2 fracOrder.tax := by
  refine ⟨?_, ?_, ?_⟩
  · simp [placeOrder, processItems, reserveStock, findProduct, setStock, clearCartStore,
      shippingFeeFor, taxFor, totalFor, fracStore, fracCart, demoInput, fracOrder,
      fracStoreAfter]
    norm_num
  · norm_num [fracOrder, roundHalfUp2]
  · norm_num [fracOrder, roundHalfUp2]

/-- C5 amended.  In the exact (rational) model of the code's arithmetic, every
successful run stores the tax as exactly subtotal × 0.05 with no rounding of
any kind, and the total is the plain sum subtotal + shipping + unrounded tax;
the code carries these amounts as binary floating-point values, not in a
minor-unit decimal representation. -/
theorem placeOrder_tax_exact_unrounded (fl : Flags) (uid : Nat)
    (inp : PlaceOrderInput) (cart : Cart) (st st' : Store) (o : Order)
    (h : placeOrder fl uid inp cart st = (st', Except.ok o)) :
    o.tax = taxFor o.subtotal ∧
    o.total = o.subtotal + o.shippingFee + o.tax := by
  obtain ⟨-, -, acc, hp, ho, -⟩ := placeOrder_ok_elim fl uid inp cart st st' o h
  subst ho
  exact ⟨rfl, rfl⟩

/-- Witness for the amended C5 at the concrete demo run. -/
theorem placeOrder_tax_exact_unrounded_witness :
    demoOrder.tax = taxFor demoOrder.subtotal ∧
    demoOrder.total = demoOrder.subtotal + demoOrder.shippingFee + demoOrder.tax :=
  placeOrder_tax_exact_unrounded ⟨false, false, "VEN-1"⟩ 42 demoInput demoCart
    demoStore demoStoreAfter demoOrder demo_run

/-! ### Stock accounting -/

/-- Whether a product document with this id exists. -/
def present (ps : List (Nat × Product)) (pid : Nat) : Bool :=
  (findProduct ps pid).isSome

/-- Total quantity recorded for one product id in a compensation list. -/
def sumQ : List (Nat × ℤ) → Nat → ℤ
  | [], _ => 0
  | (k, q) :: rest, pid => (if k = pid then q else 0) + sumQ rest pid

theorem stockOf_setStock_ne (ps : List (Nat × Product)) (pid pid' : Nat) (v : ℤ)
    (h : pid' ≠ pid) : stockOf (setStock ps pid v) pid' = stockOf ps pid' := by
  simp [stockOf, findProduct_setStock_ne ps pid pid' v h]

theorem present_setStock (ps : List (Nat × Product)) (pid pid' : Nat) (v : ℤ) :
    present (setStock ps pid v) pid' = present ps pid' := by
  by_cases h : pid' = pid
  · subst h
    simp only [present, findProduct_setStock_self]
    cases findProduct ps pid' <;> rfl
  · simp [present, findProduct_setStock_ne ps pid pid' v h]

theorem present_incStock (ps : List (Nat × Product)) (pid pid' : Nat) (q : ℤ) :
    present (incStock ps pid q) pid' = present ps pid' := by
  unfold incStock
  cases findProduct ps pid with
  | none => rfl
  | some p => exact present_setStock ps pid pid' (p.stock + q)

theorem stockOf_incStock_self (ps : List (Nat × Product)) (pid : Nat) (q : ℤ)
    (h : present ps pid = true) :
    stockOf (incStock ps pid q) pid = stockOf ps pid + q := by
  unfold incStock
  cases hf : findProduct ps pid with
  | none => simp [present, hf] at h
  | some p =>
      rw [stockOf_setStock_self ps pid (p.stock + q) p hf]
      simp [stockOf, hf]

theorem stockOf_incStock_ne (ps : List (Nat × Product)) (pid pid' : Nat) (q : ℤ)
    (h : pid' ≠ pid) : stockOf (incStock ps pid q) pid' = stockOf ps pid' := by
  unfold incStock
  cases findProduct ps pid with
  | none => rfl
  | some p => exact stockOf_setStock_ne ps pid pid' (p.stock + q) h

theorem rollbackAll_spec (l : List (Nat × ℤ)) (ps : List (Nat × Product))
    (hl : ∀ e ∈ l, present ps e.1 = true) (pid : Nat) :
    present (rollbackAll ps l) pid = present ps pid ∧
    stockOf (rollbackAll ps l) pid = stockOf ps pid + sumQ l pid := by
  induction l generalizing ps with
  | nil => simp [rollbackAll, sumQ]
  | cons e rest ih =>
      obtain ⟨k, q⟩ := e
      have hk : present ps k = true := hl (k, q) (List.mem_cons_self _ _)
      have hl' : ∀ e ∈ rest, present (incStock ps k q) e.1 = true := by
        intro e he
        rw [present_incStock]
        exact hl e (List.mem_cons_of_mem _ he)
      obtain ⟨hpres, hstock⟩ := ih (incStock ps k q) hl'
      constructor
      · rw [rollbackAll, hpres, present_incStock]
      · rw [rollbackAll, hstock]
        by_cases hpid : k = pid
        · subst hpid
          rw [stockOf_incStock_self ps k q hk]
          simp [sumQ]
          ring
        · rw [stockOf_incStock_ne ps k pid q (Ne.symm hpid)]
          simp [sumQ, hpid]

theorem reserveStock_true_elim (ps ps' : List (Nat × Product)) (pid : Nat) (q : ℤ)
    (h : reserveStock ps pid q = (ps', true)) :
    ∃ p, findProduct ps pid = some p ∧ q ≤ p.stock ∧
      ps' = setStock ps pid (p.stock - q) := by
  unfold reserveStock at h
  cases hf : findProduct ps pid with
  | none => rw [hf] at h; simp at h
  | some p =>
      simp only [hf] at h
      by_cases hq : q ≤ p.stock
      · rw [if_pos hq] at h
        simp only [Prod.mk.injEq] at h
        exact ⟨p, rfl, hq, h.1.symm⟩
      · rw [if_neg hq] at h
        simp at h

theorem processItems_stock_spec (items : List CartItem) (acc acc' : LoopAcc)
    (h : processItems items acc = (acc', none)) :
    ∃ newP : List (Nat × ℤ),
      acc'.processed = acc.processed ++ newP ∧
      (∀ e ∈ newP, present acc.products e.1 = true) ∧
      (∀ pid, present acc'.products pid = present acc.products pid) ∧
      (∀ pid, stockOf acc'.products pid = stockOf acc.products pid - sumQ newP pid) := by
  induction items generalizing acc with
  | nil =>
      simp only [processItems, Prod.mk.injEq] at h
      obtain ⟨rfl, -⟩ := h
      exact ⟨[], by simp, by simp, fun _ => rfl, fun pid => by simp [sumQ]⟩
  | cons item rest ih =>
      rw [processItems] at h
      cases hf : findProduct acc.products item.productID with
      | none => simp [hf] at h
      | some product =>
          simp only [hf] at h
          by_cases hb : (reserveStock acc.products item.productID item.quantity).2
          · simp only [hb, if_true] at h
            obtain ⟨newP, hproc, hmem, hpres, hstock⟩ := ih _ h
            have hr : reserveStock acc.products item.productID item.quantity
                = ((reserveStock acc.products item.productID item.quantity).1, true) := by
              rw [Prod.ext_iff]
              exact ⟨rfl, hb⟩
            obtain ⟨p, hfp, hq, hps'⟩ := reserveStock_true_elim acc.products
              (reserveStock acc.products item.productID item.quantity).1
              item.productID item.quantity hr
            rw [hfp] at hf
            obtain rfl := Option.some.injEq _ _ ▸ hf
            refine ⟨(item.productID, item.quantity) :: newP, ?_, ?_, ?_, ?_⟩
            · rw [hproc]
              simp
            · intro e he
              rcases List.mem_cons.mp he with rfl | he'
              · simp [present, hfp]
              · have := hmem e he'
                rw [hps', present_setStock] at this
                exact this
            · intro pid
              rw [hpres pid, hps', present_setStock]
            · intro pid
              rw [hstock pid, hps']
              by_cases hpid : item.productID = pid
              · subst hpid
                rw [stockOf_setStock_self acc.products item.productID _ _ hfp]
                have : stockOf acc.products item.productID = p.stock := by
                  simp [stockOf, hfp]
                rw [this]
                simp [sumQ]
                ring
              · rw [stockOf_setStock_ne acc.products item.productID pid _
                  (Ne.symm hpid)]
                simp [sumQ, hpid]
          · rw [if_neg hb] at h
            simp at h

/-! ### Claim theorems: persistence failure is not retried (C7) -/

/-- C7 counterexample.  When the order insert fails — the code does not
distinguish a uniqueness conflict on the order number from any other insert
error — the very first failure is surfaced to the caller as a hard
`insertFailed` error: no fresh order number is generated, no retry of the
persistence step happens, and far from being kept, the held reservation is
rolled back (the final store equals the initial one, stock back at 5). -/
theorem placeOrder_insert_conflict_cex :
    placeOrder ⟨true, false, "VEN-1"⟩ 42 demoInput demoCart demoStore
      = (demoStore, Except.error PlaceError.insertFailed) ∧
    stockOf demoStore.products 1 = 5 := by
  constructor
  · simp [placeOrder, processItems, reserveStock, findProduct, setStock, rollbackAll,
      incStock, demoStore, demoCart, demoInput, demoProduct]
  · simp [stockOf, findProduct, demoStore, demoProduct]

/-- C7 amended.  When the order-persistence write fails (a uniqueness conflict
included: the code inspects no error class), `placeOrder` performs no retry:
it rolls every held reservation back — each product's stock returns to its
pre-call value — persists no order, leaves the carts untouched, and surfaces
the persistence error to the caller on the first failure. -/
theorem placeOrder_insert_failure_rolls_back (cf : Bool) (n : String) (uid : Nat)
    (inp : PlaceOrderInput) (cart : Cart) (st : Store) (acc : LoopAcc)
    (hne : cart.items ≠ [])
    (hp : processItems cart.items ⟨st.products, [], 0, []⟩ = (acc, none)) :
    ∃ st', placeOrder ⟨true, cf, n⟩ uid inp cart st
        = (st', Except.error PlaceError.insertFailed) ∧
      st'.orders = st.orders ∧ st'.carts = st.carts ∧
      ∀ pid, stockOf st'.products pid = stockOf st.products pid := by
  obtain ⟨newP, hproc, hmem, hpres, hstock⟩ := processItems_stock_spec _ _ _ hp
  have hproc' : acc.processed = newP := by simpa using hproc
  have he : cart.items.isEmpty = false := by
    cases hi : cart.items with
    | nil => exact absurd hi hne
    | cons a l => rfl
  refine ⟨{ st with products := rollbackAll acc.products acc.processed }, ?_, rfl, rfl, ?_⟩
  · unfold placeOrder
    rw [he]
    simp only [Bool.false_eq_true, if_false, hp]
    simp
  · intro pid
    have hl : ∀ e ∈ acc.processed, present acc.products e.1 = true := by
      intro e hein
      rw [hpres e.1]
      exact hmem e (hproc' ▸ hein)
    obtain ⟨-, hroll⟩ := rollbackAll_spec acc.processed acc.products hl pid
    show stockOf (rollbackAll acc.products acc.processed) pid = stockOf st.products pid
    rw [hroll, hstock pid, hproc']
    ring

/-- Witness for the amended C7: the demo cart with a failing insert returns
the error with stock restored. -/
theorem placeOrder_insert_failure_rolls_back_witness :
    ∃ st', placeOrder ⟨true, false, "VEN-1"⟩ 42 demoInput demoCart demoStore
        = (st', Except.error PlaceError.insertFailed) ∧
      st'.orders = demoStore.orders ∧ st'.carts = demoStore.carts ∧
      ∀ pid, stockOf st'.products pid = stockOf demoStore.products pid :=
  placeOrder_insert_failure_rolls_back false "VEN-1" 42 demoInput demoCart demoStore
    ⟨[(1, ⟨10, 7, "A", 3⟩)], [⟨1, 7, "A", "imgA", 10, 2, 20⟩], 20, [(1, 2)]⟩
    (by simp [demoCart])
    (by
      simp [processItems, reserveStock, findProduct, setStock, demoCart, demoStore,
        demoProduct]
      norm_num)

/-! ### Claim theorems: stock conservation under concurrency (C3) -/

/-- Global state seen by concurrently running sagas, for one tracked product:
the shared products collection, the aggregate quantity currently reserved by
in-flight executions (decremented from stock but not yet in an order nor
released), and the aggregate quantity in successfully created orders. -/
structure SagaState where
  products : List (Nat × Product)
  held : ℤ
  committed : ℤ

/-- One observable effect of any concurrently running `PlaceOrder` execution
on the tracked product: an atomic conditional reservation (a successful
`reserveStock`, the only way the code decrements stock; a cart line's
quantity, hence nonnegative), a compensating release (the rollback's
`incStock` of quantity previously reserved and still held), or the insertion
of an order consuming held quantity.  Interleavings of any number of sagas
are exactly the sequences of these steps. -/
inductive SagaStep (pid : Nat) : SagaState → SagaState → Prop where
  | reserve (ps ps' : List (Nat × Product)) (held committed q : ℤ)
      (hq : 0 ≤ q) (h : reserveStock ps pid q = (ps', true)) :
      SagaStep pid ⟨ps, held, committed⟩ ⟨ps', held + q, committed⟩
  | release (ps : List (Nat × Product)) (held committed q : ℤ)
      (hq : 0 ≤ q) (hle : q ≤ held) :
      SagaStep pid ⟨ps, held, committed⟩ ⟨incStock ps pid q, held - q, committed⟩
  | commit (ps : List (Nat × Product)) (held committed q : ℤ)
      (hq : 0 ≤ q) (hle : q ≤ held) :
      SagaStep pid ⟨ps, held, committed⟩ ⟨ps, held - q, committed + q⟩

/-- Reachability under any interleaving of saga steps. -/
def SagaReach (pid : Nat) : SagaState → SagaState → Prop :=
  Relation.ReflTransGen (SagaStep pid)

/-- The conservation invariant: the product exists, stock and the aggregate
counters are nonnegative, and stock + held + committed equals the initial
stock S. -/
def SagaInv (pid : Nat) (S : ℤ) (s : SagaState) : Prop :=
  present s.products pid = true ∧ 0 ≤ stockOf s.products pid ∧
  0 ≤ s.held ∧ 0 ≤ s.committed ∧
  stockOf s.products pid + s.held + s.committed = S

theorem sagaStep_inv (pid : Nat) (S : ℤ) (s s' : SagaState)
    (hstep : SagaStep pid s s') (hinv : SagaInv pid S s) : SagaInv pid S s' := by
  cases hstep with
  | reserve ps ps' held committed q hq h =>
      obtain ⟨p, hfp, hqle, rfl⟩ := reserveStock_true_elim _ _ _ _ h
      simp only [SagaInv] at hinv ⊢
      obtain ⟨hpr, hst, hh, hc, hsum⟩ := hinv
      have hsp : stockOf ps pid = p.stock := by simp [stockOf, hfp]
      rw [present_setStock, stockOf_setStock_self ps pid _ p hfp]
      exact ⟨hpr, by omega, by omega, hc, by omega⟩
  | release ps held committed q hq hle =>
      simp only [SagaInv] at hinv ⊢
      obtain ⟨hpr, hst, hh, hc, hsum⟩ := hinv
      rw [present_incStock, stockOf_incStock_self ps pid q hpr]
      exact ⟨hpr, by omega, by omega, hc, by omega⟩
  | commit ps held committed q hq hle =>
      simp only [SagaInv] at hinv ⊢
      obtain ⟨hpr, hst, hh, hc, hsum⟩ := hinv
      exact ⟨hpr, hst, by omega, by omega, by omega⟩

/-- C3.  Starting from a store holding the tracked product with stock S ≥ 0
and no quantity held or committed, every state reachable under any
interleaving of concurrent saga steps has at most S committed: the sum of the
quantities of this product in successfully created orders never exceeds the
initial stock. -/
theorem stock_conservation (pid : Nat) (S : ℤ) (s₀ s : SagaState)
    (h₀pres : present s₀.products pid = true)
    (h₀stock : stockOf s₀.products pid = S)
    (h₀held : s₀.held = 0) (h₀comm : s₀.committed = 0) (h₀S : 0 ≤ S)
    (hreach : SagaReach pid s₀ s) :
    s.committed ≤ S := by
  have hinv : SagaInv pid S s := by
    induction hreach with
    | refl => exact ⟨h₀pres, by omega, by omega, by omega, by omega⟩
    | tail hr hstep ih => exact sagaStep_inv pid S _ _ hstep ih
  obtain ⟨-, hst, hh, -, hsum⟩ := hinv
  omega

/-- Witness for C3: from stock 5, reserving 3 and committing 3 reaches a
state with 3 committed, and 3 ≤ 5. -/
theorem stock_conservation_witness :
    SagaState.committed ⟨[(1, ⟨10, 7, "A", 2⟩)], 0, 3⟩ ≤ 5 :=
  stock_conservation 1 5 ⟨[(1, ⟨10, 7, "A", 5⟩)], 0, 0⟩
    ⟨[(1, ⟨10, 7, "A", 2⟩)], 0, 3⟩ rfl rfl rfl rfl (by norm_num)
    (Relation.ReflTransGen.tail
      (Relation.ReflTransGen.single
        (SagaStep.reserve [(1, ⟨10, 7, "A", 5⟩)] [(1, ⟨10, 7, "A", 2⟩)] 0 0 3
          (by norm_num) rfl))
      (SagaStep.commit [(1, ⟨10, 7, "A", 2⟩)] 3 0 3 (by norm_num) (by norm_num)))

/-- Witness for C9 at the concrete demo run: with the cart-clearing write
failing, the same order is returned and the orders/products collections match
the run where clearing succeeded. -/
theorem placeOrder_clear_failure_keeps_order_witness :
    ∃ st₂, placeOrder ⟨false, true, "VEN-1"⟩ 42 demoInput demoCart demoStore
        = (st₂, Except.ok demoOrder) ∧
      st₂.orders = demoStoreAfter.orders ∧ st₂.products = demoStoreAfter.products :=
  placeOrder_clear_failure_keeps_order false "VEN-1" 42 demoInput demoCart demoStore
    demoStoreAfter demoOrder demo_run
